import Mathlib

/-!
# Verification of the graphiti-ui interactive graph-visualization engine

Shallow embedding of the `VisualizationPage` component
(`frontend/src/pages/VisualizationPage.tsx`): the multi-edge index
assignment (`processedEdges`), the geometry model (`linkPath`,
`getLabelPosition`), the selection/highlight handlers
(`handleNodeClick`, `handleEdgeClick`, `navigateToNode`,
`navigateToEdge`), the episode cache (`loadEpisodeBackground` /
`loadEpisode`), and the setup-effect / auto-fit lifecycle
(`useEffect` dependency array, `autoFitDoneRef`).

Modelling conventions:
* A JavaScript number that may be `undefined` or `NaN` is `JsNum :=
  Option ℚ`; `none` stands for the absent value (`undefined` before
  arithmetic, `NaN` after), `some q` for an ordinary number.
  Arithmetic propagates `none`; division by zero yields `none` (in the
  code the only division by zero is `0/0`, which is `NaN`).
* `Math.sqrt` is a parameter `sq : ℚ → ℚ`; theorems that depend on its
  value pin it down with the hypothesis `IsSqrtOf (sq v) v`, and closed
  statements use `qSqrt`, which is the exact square root on the perfect
  squares arising in those statements (`Math.sqrt` is exact there too).
* JavaScript `Set` objects are insertion-ordered duplicate-free lists
  (`setAdd` / JS `Set.add`), or `Finset`s where only the extension
  matters.
-/

set_option autoImplicit false

namespace GraphitiUI

/-- A JavaScript number that may be undefined/NaN: `none` is the absent
value, `some q` an ordinary (rational-modelled) number. -/
abbrev JsNum := Option ℚ

/-- JavaScript truthiness of a number: `undefined`, `NaN` and `0` are
falsy, everything else truthy. -/
def jsTruthy : JsNum → Bool
  | none => false
  | some q => q != 0

/-- Addition with NaN/undefined propagation. -/
def jsAdd : JsNum → JsNum → JsNum
  | some a, some b => some (a + b)
  | _, _ => none

/-- Subtraction with NaN/undefined propagation. -/
def jsSub : JsNum → JsNum → JsNum
  | some a, some b => some (a - b)
  | _, _ => none

/-- Multiplication with NaN/undefined propagation. -/
def jsMul : JsNum → JsNum → JsNum
  | some a, some b => some (a * b)
  | _, _ => none

/-- Division with NaN/undefined propagation; division by zero gives the
absent value (in the embedded code it only occurs as `0/0 = NaN`). -/
def jsDiv : JsNum → JsNum → JsNum
  | some a, some b => if b = 0 then none else some (a / b)
  | _, _ => none

/-- Negation with NaN/undefined propagation. -/
def jsNeg : JsNum → JsNum
  | some a => some (-a)
  | none => none

/-- `Math.sqrt` with a parameter for the square-root function on
nonnegative rationals; negative input gives `NaN`. -/
def jsSqrtF (sq : ℚ → ℚ) : JsNum → JsNum
  | some a => if a < 0 then none else some (sq a)
  | none => none

/-- `s` is the exact square root of `v`. -/
def IsSqrtOf (s v : ℚ) : Prop := 0 ≤ s ∧ s * s = v

/-- `⌊√n⌋` by exhaustive search (kernel-computable for the small
concrete inputs of closed statements). -/
def natSqrt (n : ℕ) : ℕ :=
  ((List.range (n + 1)).filter (fun k => k * k ≤ n)).length - 1

/-- Exact rational square root for rationals whose numerator and
denominator are perfect squares (the concrete inputs of closed
statements below); `Math.sqrt` agrees with it there. -/
def qSqrt (q : ℚ) : ℚ := (natSqrt q.num.toNat : ℚ) / (natSqrt q.den : ℚ)

/-- One command of an SVG path string, with possibly-NaN coordinates;
`linkPath`'s return string is this list rendered. -/
inductive SvgCmd where
  | move (x y : JsNum)
  | line (x y : JsNum)
  | arc (rx ry rot largeArc sweep : ℚ) (x y : JsNum)
  | quadTo (cx cy x y : JsNum)
deriving DecidableEq

/-- An SVG path as its command list; `[]` is the empty string `''`. -/
abbrev SvgPath := List SvgCmd

/-- Endpoint carried by a path command. -/
def cmdPoint : SvgCmd → JsNum × JsNum
  | .move x y => (x, y)
  | .line x y => (x, y)
  | .arc _ _ _ _ _ x y => (x, y)
  | .quadTo _ _ x y => (x, y)

/-- Start point of a path (point of its first command). -/
def pathStart (p : SvgPath) : Option (JsNum × JsNum) := p.head?.map cmdPoint

/-- End point of a path (point of its last command). -/
def pathEnd (p : SvgPath) : Option (JsNum × JsNum) := p.getLast?.map cmdPoint

/-- Does a command mention a NaN/undefined coordinate? -/
def cmdHasNaN : SvgCmd → Bool
  | .move x y => x.isNone || y.isNone
  | .line x y => x.isNone || y.isNone
  | .arc _ _ _ _ _ x y => x.isNone || y.isNone
  | .quadTo cx cy x y => cx.isNone || cy.isNone || x.isNone || y.isNone

/-- Does a path contain a NaN/undefined coordinate? -/
def pathHasNaN (p : SvgPath) : Bool := p.any cmdHasNaN

/-- An edge datum as seen by `linkPath`/`getLabelPosition` after d3 has
replaced `source`/`target` by node objects: their ids and (possibly
undefined) positions, plus the multi-edge metadata. -/
structure DrawnEdge where
  sourceId : String
  targetId : String
  sx : JsNum
  sy : JsNum
  tx : JsNum
  ty : JsNum
  linkIndex : Option ℕ := none
  linkCount : Option ℕ := none
deriving DecidableEq

/-- `d.linkCount || 1`: `undefined` and `0` fall back to `1`. -/
def effCount : Option ℕ → ℕ
  | none => 1
  | some 0 => 1
  | some (n + 1) => n + 1

/-- `d.linkIndex || 0`: `undefined` falls back to `0`. -/
def effIndex : Option ℕ → ℕ
  | none => 0
  | some i => i

/-- `(linkIndex - (linkCount - 1) / 2) * 30`: the perpendicular offset
of a multi-edge curve (spacing constant K = 30). -/
def curveOffset (li lc : ℕ) : ℚ := ((li : ℚ) - ((lc : ℚ) - 1) / 2) * 30

/-- `linkPath` of `VisualizationPage.tsx` (lines 579–621): the guard
`if (!source.x || !target.x) return ''`, the self-loop branch, the
single-edge straight segment, and the quadratic multi-edge curve. -/
def linkPath (sq : ℚ → ℚ) (d : DrawnEdge) : SvgPath :=
  if !(jsTruthy d.sx) || !(jsTruthy d.tx) then []
  else if d.sourceId = d.targetId then
    let x := d.sx
    let y := d.sy
    [ .move (jsSub x (some 10)) (jsSub y (some 10)),
      .arc 30 30 0 1 1 (jsAdd x (some 10)) (jsSub y (some 10)),
      .arc 30 30 0 0 1 (jsSub x (some 10)) (jsSub y (some 10)) ]
  else
    let dx := jsSub d.tx d.sx
    let dy := jsSub d.ty d.sy
    let dr := jsSqrtF sq (jsAdd (jsMul dx dx) (jsMul dy dy))
    let lc := effCount d.linkCount
    let li := effIndex d.linkIndex
    if lc = 1 then [ .move d.sx d.sy, .line d.tx d.ty ]
    else
      let offset := curveOffset li lc
      let midX := jsDiv (jsAdd d.sx d.tx) (some 2)
      let midY := jsDiv (jsAdd d.sy d.ty) (some 2)
      let nx := jsDiv (jsNeg dy) dr
      let ny := jsDiv dx dr
      let ctrlX := jsAdd midX (jsMul nx (some offset))
      let ctrlY := jsAdd midY (jsMul ny (some offset))
      [ .move d.sx d.sy, .quadTo ctrlX ctrlY d.tx d.ty ]

/-- `getLabelPosition` of `VisualizationPage.tsx` (lines 624–657): the
guard returning `{x: 0, y: 0}`, the self-loop anchor, the midpoint for
single edges, and the half-offset anchor for multi-edges
(`midX + nx * offset * 0.5`). -/
def getLabelPosition (sq : ℚ → ℚ) (d : DrawnEdge) : JsNum × JsNum :=
  if !(jsTruthy d.sx) || !(jsTruthy d.tx) then (some 0, some 0)
  else if d.sourceId = d.targetId then (d.sx, jsSub d.sy (some 50))
  else
    let dx := jsSub d.tx d.sx
    let dy := jsSub d.ty d.sy
    let dr := jsSqrtF sq (jsAdd (jsMul dx dx) (jsMul dy dy))
    let lc := effCount d.linkCount
    let li := effIndex d.linkIndex
    let midX := jsDiv (jsAdd d.sx d.tx) (some 2)
    let midY := jsDiv (jsAdd d.sy d.ty) (some 2)
    if lc = 1 then (midX, midY)
    else
      let offset := curveOffset li lc
      let nx := jsDiv (jsNeg dy) dr
      let ny := jsDiv dx dr
      (jsAdd midX (jsMul (jsMul nx (some offset)) (some (1/2))),
       jsAdd midY (jsMul (jsMul ny (some offset)) (some (1/2))))

/-- A snapshot edge (the fields of the `Edge` interface that the
embedded operations read). `source`/`target` hold the endpoint node
identifier: the code's `typeof edge.source === 'string' ? edge.source :
edge.source.id` dispatch always extracts exactly this id, so the
string/Node union is collapsed to the id. -/
structure Edge where
  source : String
  target : String
  linkIndex : Option ℕ := none
  linkCount : Option ℕ := none
  originalIndex : Option ℕ := none
deriving DecidableEq

/-- Lexicographic `≤` on character lists, as a boolean (the order the
default JS `sort()` comparator induces on strings). -/
def charsLe : List Char → List Char → Bool
  | [], _ => true
  | _ :: _, [] => false
  | a :: as, b :: bs =>
    if a.toNat < b.toNat then true
    else if b.toNat < a.toNat then false
    else charsLe as bs

/-- Lexicographic `≤` on strings. -/
def strLe (s t : String) : Bool := charsLe s.data t.data

/-- `[sourceId, targetId].sort().join('-')`: the per-pair key of the
link-count map (default JS sort on two strings is lexicographic). -/
def pairKey (s t : String) : String :=
  if strLe s t then s ++ "-" ++ t else t ++ "-" ++ s

/-- The key of an edge's endpoints. -/
def edgeKey (e : Edge) : String := pairKey e.source e.target

/-- The unordered endpoint pair of an edge, as a sorted pair. -/
def uPair (e : Edge) : String × String :=
  if strLe e.source e.target then (e.source, e.target)
  else (e.target, e.source)

/-- Do two edges connect the same unordered node pair? -/
def samePair (e₁ e₂ : Edge) : Bool := uPair e₁ = uPair e₂

/-- First pass of `processedEdges` (lines 413–423): map over the edges
threading the mutable `linkCounts` record (`m`) and the map index `i`;
each edge gets `linkIndex := linkCounts[key]++` and
`originalIndex := i`. Returns the annotated list together with the
final state of the `linkCounts` record. -/
def pass1 : List Edge → ℕ → (String → ℕ) → List Edge × (String → ℕ)
  | [], _, m => ([], m)
  | e :: es, i, m =>
    let k := edgeKey e
    let r := pass1 es (i + 1) (fun k2 => if k2 = k then m k + 1 else m k2)
    ({ e with linkIndex := some (m k), originalIndex := some i } :: r.1, r.2)

/-- `processedEdges` (lines 413–431): assign `linkIndex`/`originalIndex`
in a first pass, then set every edge's `linkCount` from the final
`linkCounts` record. This list is what is handed to `d3.forceLink` and
stored in `processedEdgesRef`. -/
def processedEdges (es : List Edge) : List Edge :=
  let r := pass1 es 0 (fun _ => 0)
  r.1.map (fun e => { e with linkCount := some (r.2 (edgeKey e)) })

/-- Number of edges of the list sharing a given pair key. -/
def countKey (k : String) (es : List Edge) : ℕ :=
  (es.filter (fun e => edgeKey e = k)).length

/-- Number of edges of the list sharing `e₀`'s unordered endpoint
pair. -/
def pairCount (e₀ : Edge) (es : List Edge) : ℕ :=
  (es.filter (fun e => samePair e e₀)).length

/-- The `linkIndex` values (in list order) of the edges sharing `e₀`'s
unordered endpoint pair. -/
def pairIndexList (e₀ : Edge) (es : List Edge) : List ℕ :=
  (es.filter (fun e => samePair e e₀)).filterMap (fun e => e.linkIndex)

/-- The `linkIndex` values (in list order) of the edges sharing a pair
key. -/
def keyIndexList (k : String) (es : List Edge) : List ℕ :=
  (es.filter (fun e => edgeKey e = k)).filterMap (fun e => e.linkIndex)

/-- The per-pair index-set property claimed for `processedEdges` output:
every edge's `linkCount` bounds a complete range of `linkIndex` values
among the edges sharing its unordered pair. -/
def pairIndexComplete (pes : List Edge) : Prop :=
  ∀ e ∈ pes, ∀ c, c < (e.linkCount.getD 0) →
    ∃ e2 ∈ pes, samePair e2 e ∧ e2.linkIndex = some c

instance (pes : List Edge) : Decidable (pairIndexComplete pes) := by
  unfold pairIndexComplete
  infer_instance

/-! ## Selection state machine -/

/-- The selection/highlight state of the page: `selectedNode`,
`selectedEdge`, `highlightedNodes`, `highlightedEdges`,
`expandedEpisode` (`useState` hooks, lines 82–93). A selected node is
tracked by its id, an edge by its datum. -/
structure SelState where
  selectedNode : Option String
  selectedEdge : Option Edge
  highlightedNodes : Finset String
  highlightedEdges : Finset ℕ
  expandedEpisode : Option String
deriving DecidableEq

/-- Is the edge incident to the node (`sourceId === node.id ||
targetId === node.id`)? -/
def incident (nid : String) (e : Edge) : Bool :=
  e.source = nid || e.target = nid

/-- The `edges.forEach((edge, index) => ...)` accumulation of
`handleNodeClick`: collect endpoint ids and positional indices of the
incident edges, threading the running index. -/
def hncFold (nid : String) :
    List Edge → ℕ → Finset String × Finset ℕ → Finset String × Finset ℕ
  | [], _, acc => acc
  | e :: es, i, acc =>
    hncFold nid es (i + 1)
      (if incident nid e then
        (insert e.target (insert e.source acc.1), insert i acc.2)
      else acc)

/-- `handleNodeClick` (lines 151–171): select the node, clear the edge
selection, and highlight `{node.id}` plus the endpoints and positional
indices of all incident edges. -/
def handleNodeClick (nid : String) (edges : List Edge) (st : SelState) :
    SelState :=
  let z := hncFold nid edges 0 ({nid}, ∅)
  { st with
    selectedNode := some nid
    selectedEdge := none
    highlightedNodes := z.1
    highlightedEdges := z.2 }

/-- `handleEdgeClick` (lines 198–217): select the edge, clear the node
selection, reset the expanded episode, highlight its two endpoints and
the given edge index (the call sites pass `d.originalIndex`). -/
def handleEdgeClick (e : Edge) (edgeIndex : ℕ) (st : SelState) :
    SelState :=
  { st with
    selectedEdge := some e
    selectedNode := none
    expandedEpisode := none
    highlightedNodes := insert e.source {e.target}
    highlightedEdges := {edgeIndex} }

/-- `clearSelection` (lines 220–225). -/
def clearSelection (st : SelState) : SelState :=
  { st with
    selectedNode := none
    selectedEdge := none
    highlightedNodes := ∅
    highlightedEdges := ∅ }

/-- The `edges.forEach` accumulation of `navigateToNode`: like
`hncFold` but the highlighted edge indices come from each edge's
`originalIndex` field (added only when defined). -/
def navFold (nid : String) :
    List Edge → Finset String × Finset ℕ → Finset String × Finset ℕ
  | [], acc => acc
  | e :: es, acc =>
    navFold nid es
      (if incident nid e then
        (insert e.target (insert e.source acc.1),
         match e.originalIndex with
         | some i => insert i acc.2
         | none => acc.2)
      else acc)

/-- `navigateToNode` (lines 228–251): the sidebar entry point; iterates
over `processedEdgesRef.current` collecting `originalIndex` values of
incident edges. -/
def navigateToNode (nid : String) (edges : List Edge) (st : SelState) :
    SelState :=
  let z := navFold nid edges ({nid}, ∅)
  { st with
    selectedNode := some nid
    selectedEdge := none
    highlightedNodes := z.1
    highlightedEdges := z.2 }

/-- `navigateToEdge` (lines 254–275): the sidebar entry point; if the
edge has no `originalIndex` the highlighted edge set is left
untouched. -/
def navigateToEdge (e : Edge) (st : SelState) : SelState :=
  { st with
    selectedEdge := some e
    selectedNode := none
    expandedEpisode := none
    highlightedNodes := insert e.source {e.target}
    highlightedEdges :=
      match e.originalIndex with
      | some i => {i}
      | none => st.highlightedEdges }

/-! ## Episode cache

`loadEpisodeBackground` (lines 174–195) and `loadEpisode` (lines
287–318) guard on the `loadedEpisodes` / `loadingEpisodes` React state
captured by the callback's closure — the values of the **last render**
— while their updates are functional (`setX(prev => ...)`) and act on
the **live** state. The model therefore keeps both a `snap`shot (the
closure values) and the `live` state; a `render` event publishes the
live state into the snapshot. Episode payloads are irrelevant to the
claims, so the maps are tracked by their key sets. -/

/-- A JS `Set`/`Record` key set: insertion-ordered, duplicate-free. -/
def setAdd (l : List String) (id : String) : List String :=
  if id ∈ l then l else l ++ [id]

/-- The episode-cache React state: keys of `loadedEpisodes` and
`loadingEpisodes`. An id in neither is `NotRequested`. -/
structure CacheState where
  loadedKeys : List String
  loadingKeys : List String
deriving DecidableEq

/-- Cache model: live state, rendered snapshot (what callbacks read),
the log of issued fetches (`api.get` calls), and the count of
`console.error` logs. -/
structure CacheSys where
  live : CacheState
  snap : CacheState
  fetched : List String
  errorsLogged : ℕ
deriving DecidableEq

/-- Cache events: a React render (publishing live state to the
callbacks), a `loadEpisodeBackground`/`loadEpisode` request, and the
three ways the awaited fetch can come back (`success && episode`,
a response without an episode, a thrown error). -/
inductive CacheEv where
  | render
  | request (id : String)
  | fetchOk (id : String)
  | fetchEmpty (id : String)
  | fetchFail (id : String)

/-- One step of the episode cache. `request` mirrors
`if (loadedEpisodes[id] || loadingEpisodes.has(id)) return;` (reading
the snapshot) then `setLoadingEpisodes(prev => prev.add(id))` and the
`api.get` call; the fetch-completion events mirror the `then`/`catch`/
`finally` updates. No event throws: `cacheStep` is total. -/
def cacheStep (s : CacheSys) : CacheEv → CacheSys
  | .render => { s with snap := s.live }
  | .request id =>
    if id ∈ s.snap.loadedKeys ∨ id ∈ s.snap.loadingKeys then s
    else
      { s with
        live := { s.live with loadingKeys := setAdd s.live.loadingKeys id }
        fetched := s.fetched ++ [id] }
  | .fetchOk id =>
    { s with
      live :=
        { loadedKeys := setAdd s.live.loadedKeys id
          loadingKeys := s.live.loadingKeys.erase id } }
  | .fetchEmpty id =>
    { s with
      live := { s.live with loadingKeys := s.live.loadingKeys.erase id } }
  | .fetchFail id =>
    { s with
      live := { s.live with loadingKeys := s.live.loadingKeys.erase id }
      errorsLogged := s.errorsLogged + 1 }

/-- Run a sequence of cache events. -/
def cacheRun (s : CacheSys) (evs : List CacheEv) : CacheSys :=
  evs.foldl cacheStep s

/-- The all-empty, fully rendered cache state. -/
def cacheInit : CacheSys := ⟨⟨[], []⟩, ⟨[], []⟩, [], 0⟩

/-! ## Setup effect, simulation restarts and auto-fit

The graph setup effect (lines 366–731) builds the d3 simulation and
registers the one-shot auto-fit `end` handler guarded by
`autoFitDoneRef`; its dependency array (line 731) is `[graphData,
theme, typeColors, handleNodeClick, handleEdgeClick, clearSelection]`.
`typeColors` is memoized from `graphData`, and `handleNodeClick` /
`clearSelection` have constant identity, so the effect re-runs exactly
when `graphData` changes, when `theme` changes, or when
`handleEdgeClick`'s identity changes (it is re-created whenever the
episode cache state changes; that trigger is not modelled — modelling a
subset of the real re-run triggers only weakens the counterexamples).
Re-running stops the previous simulation (cleanup, line 729), creates a
fresh `d3.forceSimulation` and clears `autoFitDoneRef` (line 370).
Highlight changes are applied by the separate effect on
`[highlightedNodes, highlightedEdges]` (lines 734–760), which never
touches the simulation. -/

/-- Lifecycle state: epoch counters stand for object identities.
`simEpoch` counts simulation creations; `freshSeed` records whether the
latest simulation received fresh node objects (positions reseeded) or
the previous snapshot's node objects (positions/velocities carried
over, because d3 keeps existing `x`/`y`/`vx`/`vy` fields). -/
structure AppSt where
  graphEpoch : ℕ
  theme : String
  hlEpoch : ℕ
  simEpoch : ℕ
  freshSeed : Bool
  autoFitDone : Bool
  fitCount : ℕ
deriving DecidableEq

/-- Lifecycle events: a snapshot fetch completing (`setGraphData` with
a fresh object), a theme change, a highlight-set change, and the
simulation reporting `end` (settling). -/
inductive AppEv where
  | loadSnapshot
  | setTheme (t : String)
  | setHighlights
  | simEnd

/-- Re-run of the setup effect: stop the old simulation, create a new
one, reset `autoFitDoneRef.current = false` (line 370). -/
def rerunSetup (s : AppSt) (fresh : Bool) : AppSt :=
  { s with simEpoch := s.simEpoch + 1, autoFitDone := false,
           freshSeed := fresh }

/-- One lifecycle step. A new snapshot changes `graphData` (new node
objects → fresh seed); a changed theme re-runs the effect over the same
node objects; a highlight change runs only the highlight effect; `end`
fires the auto-fit exactly when the guard flag is still clear (lines
688–690). -/
def appStep (s : AppSt) : AppEv → AppSt
  | .loadSnapshot => rerunSetup { s with graphEpoch := s.graphEpoch + 1 } true
  | .setTheme t =>
    if t = s.theme then s else rerunSetup { s with theme := t } false
  | .setHighlights => { s with hlEpoch := s.hlEpoch + 1 }
  | .simEnd =>
    if s.autoFitDone then s
    else { s with autoFitDone := true, fitCount := s.fitCount + 1 }

/-- Run a sequence of lifecycle events. -/
def appRun (s : AppSt) (evs : List AppEv) : AppSt :=
  evs.foldl appStep s

/-- Initial lifecycle state (no snapshot yet, light theme). -/
def appInit : AppSt := ⟨0, "light", 0, 0, true, false, 0⟩

/-! ## Helper lemmas -/

lemma natSqrt_zero : natSqrt 0 = 0 := by decide

lemma qSqrt_zero : qSqrt 0 = 0 := by
  unfold qSqrt
  norm_num [natSqrt_zero]

/-- `{e with ...}` keeps the endpoints, so the pair key is stable
under metadata updates. -/
lemma edgeKey_congr {e₁ e₂ : Edge} (hs : e₁.source = e₂.source)
    (ht : e₁.target = e₂.target) : edgeKey e₁ = edgeKey e₂ := by
  simp [edgeKey, pairKey, hs, ht]

lemma uPair_congr {e₁ e₂ : Edge} (hs : e₁.source = e₂.source)
    (ht : e₁.target = e₂.target) : uPair e₁ = uPair e₂ := by
  simp [uPair, hs, ht]

/-- The pair key is the sorted pair joined with `"-"`. -/
lemma edgeKey_eq_uPair (e : Edge) :
    edgeKey e = (uPair e).1 ++ "-" ++ (uPair e).2 := by
  unfold edgeKey pairKey uPair
  by_cases h : strLe e.source e.target <;> simp [h]

/-- Edges on the same unordered pair get the same key. -/
lemma edgeKey_eq_of_uPair {e₁ e₂ : Edge} (h : uPair e₁ = uPair e₂) :
    edgeKey e₁ = edgeKey e₂ := by
  rw [edgeKey_eq_uPair, edgeKey_eq_uPair, h]

/-- An edge carrying a `linkIndex` and an `originalIndex`; the shape of
the first-pass output. -/
def indexed (e : Edge) (li oi : ℕ) : Edge :=
  { e with linkIndex := some li, originalIndex := some oi }

lemma countKey_cons (k : String) (e : Edge) (es : List Edge) :
    countKey k (e :: es)
      = (if edgeKey e = k then 1 else 0) + countKey k es := by
  by_cases h : edgeKey e = k <;>
    simp only [countKey, List.filter_cons, h, decide_True, decide_False,
      if_pos, if_neg, not_false_eq_true, Bool.false_eq_true,
      List.length_cons] <;>
    omega

lemma countKey_append_singleton (k : String) (es : List Edge) (e : Edge) :
    countKey k (es ++ [e])
      = countKey k es + (if edgeKey e = k then 1 else 0) := by
  by_cases h : edgeKey e = k <;>
    simp [countKey, List.filter_append, List.filter_cons, h]

/-- The `linkCounts` record after the first pass holds, for each key,
its starting value plus the number of edges with that key. -/
lemma pass1_snd (es : List Edge) :
    ∀ (i : ℕ) (m : String → ℕ) (k : String),
      (pass1 es i m).2 k = m k + countKey k es := by
  induction es with
  | nil => intro i m k; simp [pass1, countKey]
  | cons e es ih =>
    intro i m k
    have h0 : (pass1 (e :: es) i m).2 k
        = (pass1 es (i + 1)
            (fun k2 => if k2 = edgeKey e then m (edgeKey e) + 1
                       else m k2)).2 k := rfl
    rw [h0, ih, countKey_cons]
    show (if k = edgeKey e then m (edgeKey e) + 1 else m k) + countKey k es
      = m k + ((if edgeKey e = k then 1 else 0) + countKey k es)
    by_cases h : k = edgeKey e
    · subst h
      rw [if_pos rfl, if_pos rfl]
      omega
    · rw [if_neg h, if_neg (fun hh : edgeKey e = k => h hh.symm)]
      omega

/-- Unfolding the first pass over a snoc: the appended edge receives
the running count of its key and the next original index. -/
lemma pass1_fst_append (es : List Edge) :
    ∀ (e : Edge) (i : ℕ) (m : String → ℕ),
      (pass1 (es ++ [e]) i m).1
        = (pass1 es i m).1 ++
          [indexed e ((pass1 es i m).2 (edgeKey e)) (i + es.length)] := by
  induction es with
  | nil => intro e i m; simp [pass1, indexed]
  | cons e2 es ih =>
    intro e i m
    have h1 : (pass1 ((e2 :: es) ++ [e]) i m).1
        = { e2 with linkIndex := some (m (edgeKey e2)), originalIndex := some i } ::
          (pass1 (es ++ [e]) (i + 1)
            (fun k2 => if k2 = edgeKey e2 then m (edgeKey e2) + 1
                       else m k2)).1 := rfl
    have h2 : (pass1 (e2 :: es) i m).1
        = { e2 with linkIndex := some (m (edgeKey e2)), originalIndex := some i } ::
          (pass1 es (i + 1)
            (fun k2 => if k2 = edgeKey e2 then m (edgeKey e2) + 1
                       else m k2)).1 := rfl
    have h3 : (pass1 (e2 :: es) i m).2
        = (pass1 es (i + 1)
            (fun k2 => if k2 = edgeKey e2 then m (edgeKey e2) + 1
                       else m k2)).2 := rfl
    rw [h1, h2, h3, ih, List.length_cons, List.cons_append]
    have harith : i + 1 + es.length = i + (es.length + 1) := by omega
    rw [harith]

/-- The first pass leaves sources and targets unchanged. -/
lemma pass1_fst_endpoints (es : List Edge) :
    ∀ (i : ℕ) (m : String → ℕ),
      ((pass1 es i m).1).map (fun e => (e.source, e.target))
        = es.map (fun e => (e.source, e.target)) := by
  induction es with
  | nil => intro i m; simp [pass1]
  | cons e es ih => intro i m; simp [pass1, ih]

/-- Every edge out of the first pass has a `linkIndex` and an
`originalIndex`. -/
lemma pass1_fst_isSome (es : List Edge) :
    ∀ (i : ℕ) (m : String → ℕ), ∀ e ∈ (pass1 es i m).1,
      (∃ li, e.linkIndex = some li) ∧ ∃ oi, e.originalIndex = some oi := by
  induction es with
  | nil => intro i m e he; simp [pass1] at he
  | cons e2 es ih =>
    intro i m e he
    simp only [pass1, List.mem_cons] at he
    rcases he with he | he
    · subst he; exact ⟨⟨_, rfl⟩, _, rfl⟩
    · exact ih _ _ e he

/-- The second pass of `processedEdges` as a map. -/
def annotate (m : String → ℕ) (l : List Edge) : List Edge :=
  l.map (fun e => { e with linkCount := some (m (edgeKey e)) })

lemma processedEdges_eq_annotate (es : List Edge) :
    processedEdges es
      = annotate (pass1 es 0 (fun _ => 0)).2 (pass1 es 0 (fun _ => 0)).1 :=
  rfl

/-- Setting `linkCount` changes neither the filter by key nor the
collected `linkIndex` values. -/
lemma keyIndexList_annotate (k : String) (m : String → ℕ) (l : List Edge) :
    keyIndexList k (annotate m l) = keyIndexList k l := by
  induction l with
  | nil => simp [annotate, keyIndexList]
  | cons e l ih =>
    have hk : edgeKey { e with linkCount := some (m (edgeKey e)) }
        = edgeKey e := edgeKey_congr rfl rfl
    simp only [annotate, List.map_cons, keyIndexList, List.filter_cons, hk]
    by_cases h : edgeKey e = k
    · simp only [h, decide_True, if_pos, List.filterMap_cons]
      have hli : ({ e with linkCount := some (m (edgeKey e))} : Edge).linkIndex
          = e.linkIndex := rfl
      rw [hli]
      cases e.linkIndex <;>
        simpa [keyIndexList, annotate] using ih
    · simp only [h, decide_False, Bool.false_eq_true, if_neg,
        not_false_eq_true]
      simpa [keyIndexList, annotate] using ih

lemma keyIndexList_append (k : String) (l₁ l₂ : List Edge) :
    keyIndexList k (l₁ ++ l₂) = keyIndexList k l₁ ++ keyIndexList k l₂ := by
  simp [keyIndexList, List.filter_append]

/-- Per-key completeness of the index assignment: for each pair key,
reading off the `linkIndex` values of the edges with that key (in list
order) gives exactly `[0, 1, …, count − 1]`. -/
lemma keyIndexList_processedEdges (k : String) (es : List Edge) :
    keyIndexList k (processedEdges es) = List.range (countKey k es) := by
  induction es using List.reverseRecOn with
  | nil => simp [processedEdges, pass1, keyIndexList, countKey, annotate]
  | append_singleton es e ih =>
    rw [processedEdges_eq_annotate, keyIndexList_annotate,
      pass1_fst_append, keyIndexList_append]
    rw [processedEdges_eq_annotate, keyIndexList_annotate] at ih
    rw [ih]
    simp only [Nat.zero_add]
    have hk2 : edgeKey
        (indexed e ((pass1 es 0 (fun _ => 0)).2 (edgeKey e)) es.length)
        = edgeKey e := edgeKey_congr rfl rfl
    have hsingle : keyIndexList k
        [indexed e ((pass1 es 0 (fun _ => 0)).2 (edgeKey e)) es.length]
        = if edgeKey e = k
          then [(pass1 es 0 (fun _ => 0)).2 (edgeKey e)] else [] := by
      by_cases h : edgeKey e = k
      · unfold keyIndexList
        rw [List.filter_cons_of_pos (by rw [hk2]; exact decide_eq_true h),
          if_pos h]
        simp [indexed]
      · unfold keyIndexList
        rw [List.filter_cons_of_neg (by simp [hk2, h]), if_neg h]
        simp
    rw [hsingle]
    by_cases h : edgeKey e = k
    · rw [if_pos h]
      simp [pass1_snd, h, countKey_append_singleton, List.range_succ]
    · rw [if_neg h]
      simp [countKey_append_singleton, h]

/-- `processedEdges` keeps all edges, in order, with their endpoints
unchanged. -/
lemma processedEdges_endpoints (es : List Edge) :
    (processedEdges es).map (fun e => (e.source, e.target))
      = es.map (fun e => (e.source, e.target)) := by
  rw [processedEdges_eq_annotate]
  rw [show (annotate (pass1 es 0 (fun _ => 0)).2
      (pass1 es 0 (fun _ => 0)).1).map (fun e => (e.source, e.target))
      = ((pass1 es 0 (fun _ => 0)).1).map (fun e => (e.source, e.target))
    by simp [annotate]]
  exact pass1_fst_endpoints es 0 _

/-- Every processed edge records its key's total count as
`linkCount`. -/
lemma processedEdges_linkCount {es : List Edge} {e : Edge}
    (he : e ∈ processedEdges es) :
    e.linkCount = some (countKey (edgeKey e) es) := by
  rw [processedEdges_eq_annotate, annotate] at he
  rcases List.mem_map.mp he with ⟨p, hpmem, hp⟩
  have hk : edgeKey { p with linkCount := some ((pass1 es 0 (fun _ => 0)).2 (edgeKey p)) } = edgeKey p :=
    edgeKey_congr rfl rfl
  subst hp
  rw [hk, pass1_snd]
  simp

/-- Every processed edge has a `linkIndex`. -/
lemma processedEdges_linkIndex_isSome {es : List Edge} {e : Edge}
    (he : e ∈ processedEdges es) : ∃ li, e.linkIndex = some li := by
  rw [processedEdges_eq_annotate] at he
  rcases List.mem_map.mp he with ⟨p, hpmem, hp⟩
  rcases (pass1_fst_isSome es 0 _ p hpmem).1 with ⟨li, hli⟩
  subst hp
  exact ⟨li, by simp [hli]⟩

/-- A processed edge's own `linkIndex` occurs in its key's index
list. -/
lemma linkIndex_mem_keyIndexList {es : List Edge} {e : Edge} {li : ℕ}
    (he : e ∈ processedEdges es) (hli : e.linkIndex = some li) :
    li ∈ keyIndexList (edgeKey e) (processedEdges es) := by
  unfold keyIndexList
  exact List.mem_filterMap.mpr
    ⟨e, List.mem_filter.mpr ⟨he, by simp⟩, hli⟩

/-- Every element of `processedEdges es` has the endpoints of some
input edge. -/
lemma processedEdges_endpoint_origin {es : List Edge} {e : Edge}
    (he : e ∈ processedEdges es) :
    ∃ e₀ ∈ es, e.source = e₀.source ∧ e.target = e₀.target := by
  have h := processedEdges_endpoints es
  have : (e.source, e.target) ∈ es.map (fun e => (e.source, e.target)) := by
    rw [← h]
    exact List.mem_map.mpr ⟨e, he, rfl⟩
  rcases List.mem_map.mp this with ⟨e₀, h₀, hp⟩
  exact ⟨e₀, h₀, congrArg Prod.fst hp.symm, congrArg Prod.snd hp.symm⟩

/-- `x` has the endpoints of some edge of `es`. -/
def FromEs (es : List Edge) (x : Edge) : Prop :=
  ∃ x₀ ∈ es, x.source = x₀.source ∧ x.target = x₀.target

lemma fromEs_of_mem {es : List Edge} {x : Edge} (hx : x ∈ es) :
    FromEs es x := ⟨x, hx, rfl, rfl⟩

lemma fromEs_of_mem_processed {es : List Edge} {x : Edge}
    (hx : x ∈ processedEdges es) : FromEs es x :=
  processedEdges_endpoint_origin hx

/-- Key injectivity on the pairs present in the snapshot: distinct
unordered pairs of `es` never produce the same sort-join key. -/
def KeyInj (es : List Edge) : Prop :=
  ∀ e₁ ∈ es, ∀ e₂ ∈ es, edgeKey e₁ = edgeKey e₂ → uPair e₁ = uPair e₂

instance (es : List Edge) : Decidable (KeyInj es) := by
  unfold KeyInj
  infer_instance

/-- Under key injectivity, sharing a pair is the same as sharing a
key, for edges drawn from the snapshot. -/
lemma samePair_iff_key {es : List Edge} (hinj : KeyInj es) {x y : Edge}
    (hx : FromEs es x) (hy : FromEs es y) :
    samePair x y = true ↔ edgeKey x = edgeKey y := by
  constructor
  · intro h
    exact edgeKey_eq_of_uPair (of_decide_eq_true h)
  · intro h
    rcases hx with ⟨x₀, hx₀, hxs, hxt⟩
    rcases hy with ⟨y₀, hy₀, hys, hyt⟩
    have hkx : edgeKey x = edgeKey x₀ := edgeKey_congr hxs hxt
    have hky : edgeKey y = edgeKey y₀ := edgeKey_congr hys hyt
    have hu : uPair x₀ = uPair y₀ :=
      hinj x₀ hx₀ y₀ hy₀ (hkx.symm.trans (h.trans hky))
    have hux : uPair x = uPair x₀ := uPair_congr hxs hxt
    have huy : uPair y = uPair y₀ := uPair_congr hys hyt
    exact decide_eq_true (hux.trans (hu.trans huy.symm))

/-- Under key injectivity, the same-pair filter is the by-key
filter. -/
lemma filter_samePair_eq_key {es : List Edge} (hinj : KeyInj es)
    {e : Edge} (he : FromEs es e) (l : List Edge)
    (hl : ∀ x ∈ l, FromEs es x) :
    l.filter (fun x => samePair x e)
      = l.filter (fun x => edgeKey x = edgeKey e) := by
  induction l with
  | nil => rfl
  | cons a l ih =>
    have ha : FromEs es a := hl a (List.mem_cons_self a l)
    have heq : samePair a e = decide (edgeKey a = edgeKey e) := by
      by_cases hab : edgeKey a = edgeKey e
      · rw [decide_eq_true hab, (samePair_iff_key hinj ha he).mpr hab]
      · rw [decide_eq_false hab]
        rcases Bool.eq_false_or_eq_true (samePair a e) with h | h
        · exact absurd ((samePair_iff_key hinj ha he).mp h) hab
        · exact h
    simp only [List.filter_cons, heq]
    rw [ih (fun x hx => hl x (List.mem_cons_of_mem a hx))]

lemma pairIndexList_eq_keyIndexList {es : List Edge} (hinj : KeyInj es)
    {e : Edge} (he : FromEs es e) :
    pairIndexList e (processedEdges es)
      = keyIndexList (edgeKey e) (processedEdges es) := by
  unfold pairIndexList keyIndexList
  rw [filter_samePair_eq_key hinj he (processedEdges es)
    (fun x hx => fromEs_of_mem_processed hx)]

lemma pairCount_eq_countKey {es : List Edge} (hinj : KeyInj es)
    {e : Edge} (he : FromEs es e) :
    pairCount e es = countKey (edgeKey e) es := by
  unfold pairCount countKey
  rw [filter_samePair_eq_key hinj he es (fun x hx => fromEs_of_mem hx)]

/-! ## Claims -/

/-- C1: For every snapshot's edge list, after the per-pair index
assignment every edge satisfies `linkIndex < linkCount` —
unconditionally; and — as amended: provided the sort-join keys are
injective on the unordered pairs present (`KeyInj`, which holds e.g.
whenever identifiers contain no hyphen) — for each unordered endpoint
pair the `linkIndex` values of the edges sharing that pair, read in
arrival order, are exactly `0, …, linkCount − 1` (`List.range`), and
every such edge stores that pair's cardinality as its `linkCount`.
Without `KeyInj` the per-pair clause fails
(`c1_pair_range_counterexample`). -/
theorem c1_pair_index_range (es : List Edge) :
    (∀ e ∈ processedEdges es,
      ∃ li n, e.linkIndex = some li ∧ e.linkCount = some n ∧ li < n) ∧
    (KeyInj es →
      ∀ e ∈ processedEdges es,
        pairIndexList e (processedEdges es) = List.range (pairCount e es) ∧
        e.linkCount = some (pairCount e es)) := by
  constructor
  · intro e he
    rcases processedEdges_linkIndex_isSome he with ⟨li, hli⟩
    refine ⟨li, countKey (edgeKey e) es, hli,
      processedEdges_linkCount he, ?_⟩
    have hmem : li ∈ keyIndexList (edgeKey e) (processedEdges es) :=
      linkIndex_mem_keyIndexList he hli
    rw [keyIndexList_processedEdges] at hmem
    exact List.mem_range.mp hmem
  · intro hinj e he
    have hfrom : FromEs es e := fromEs_of_mem_processed he
    have hcnt : pairCount e es = countKey (edgeKey e) es :=
      pairCount_eq_countKey hinj hfrom
    refine ⟨?_, ?_⟩
    · rw [pairIndexList_eq_keyIndexList hinj hfrom,
        keyIndexList_processedEdges, hcnt]
    · rw [processedEdges_linkCount he, hcnt]

/-- The spec's own scenario: nodes `A, B, C`, edges `A→B`, `A→B`,
`B→C`. -/
def specEdges : List Edge :=
  [{ source := "A", target := "B" }, { source := "A", target := "B" },
   { source := "B", target := "C" }]

/-- Witness for `c1_pair_index_range`: the spec scenario satisfies
`KeyInj`, and the theorem's conditional clause applies, giving both
`A→B` edges `linkCount = 2` with indices `0, 1` and `B→C`
`linkCount = 1`. -/
theorem c1_pair_index_range_witness :
    KeyInj specEdges ∧
    (∀ e ∈ processedEdges specEdges,
      pairIndexList e (processedEdges specEdges)
        = List.range (pairCount e specEdges) ∧
      e.linkCount = some (pairCount e specEdges)) :=
  ⟨by decide, (c1_pair_index_range specEdges).2 (by decide)⟩

/-- Identifiers containing `-` whose sort-join keys collide: the pair
`(a, a-a-a)` and the self-pair `(a-a, a-a)` both get key
`"a-a-a-a"`. -/
def collidingEdges : List Edge :=
  [{ source := "a", target := "a-a-a" }, { source := "a-a", target := "a-a" }]

/-- Counterexample to C1 as stated: on `collidingEdges` the second
edge is the only edge on its unordered pair yet gets `linkIndex = 1`
and `linkCount = 2`, so the set of `linkIndex` values of the edges
sharing that pair is `{1}`, not `{0, …, linkCount − 1}`. -/
theorem c1_pair_range_counterexample :
    ¬ pairIndexComplete (processedEdges collidingEdges) ∧
    (processedEdges collidingEdges).map
        (fun e => (e.source, e.target, e.linkIndex, e.linkCount))
      = [("a", "a-a-a", some 0, some 2), ("a-a", "a-a", some 1, some 2)] := by
  constructor
  · decide
  · decide

/-- Do both endpoints of an edge resolve to node ids of the
snapshot? -/
def endpointsResolved (nodeIds : List String) (e : Edge) : Bool :=
  nodeIds.contains e.source && nodeIds.contains e.target

/-- C4 — as amended: no endpoint-resolution filtering happens. The
working edge list handed to the force layout (`processedEdges`) keeps
every snapshot edge, in order, with `source`/`target` unchanged,
whether or not they resolve to nodes of the snapshot; unresolved
endpoints are left for d3's force-link id lookup. -/
theorem c4_edges_never_dropped (es : List Edge) :
    (processedEdges es).map (fun e => (e.source, e.target))
      = es.map (fun e => (e.source, e.target)) ∧
    (processedEdges es).length = es.length := by
  refine ⟨processedEdges_endpoints es, ?_⟩
  have h := congrArg List.length (processedEdges_endpoints es)
  simpa using h

/-- An edge whose target `"b"` is not among the snapshot's node ids
(`["a"]`). -/
def unresolvedEdge : Edge := { source := "a", target := "b" }

/-- Counterexample to C4 as stated: the snapshot has the single node
`"a"` and one edge `a → b` with an unresolved target, yet the edge is
retained (not dropped) in the working edge list before layout. -/
theorem c4_drop_counterexample :
    (processedEdges [unresolvedEdge]).map (fun e => (e.source, e.target))
      = [("a", "b")] ∧
    endpointsResolved ["a"] unresolvedEdge = false := by
  constructor
  · decide
  · decide

/-- C10: whenever the source's or target's `x` coordinate is
`undefined` or exactly `0` — the code's falsy check, not a presence
check — `linkPath` returns the empty string and `getLabelPosition`
returns `(0, 0)`, so a node on the `x = 0` axis renders as if it had no
position. -/
theorem c10_falsy_guard (sq : ℚ → ℚ) (d : DrawnEdge)
    (h : d.sx = none ∨ d.sx = some 0 ∨ d.tx = none ∨ d.tx = some 0) :
    linkPath sq d = [] ∧ getLabelPosition sq d = (some 0, some 0) := by
  rcases h with h | h | h | h <;>
    simp [linkPath, getLabelPosition, jsTruthy, h]

/-- An edge whose source node has the defined position `(0, 7)`,
sitting exactly on the `x = 0` axis. -/
def onAxisEdge : DrawnEdge :=
  { sourceId := "n1", targetId := "n2",
    sx := some 0, sy := some 7, tx := some 3, ty := some 4 }

/-- Witness for `c10_falsy_guard` at a node with a defined position on
the `x = 0` axis. -/
theorem c10_falsy_guard_witness :
    (onAxisEdge.sx = none ∨ onAxisEdge.sx = some 0 ∨
      onAxisEdge.tx = none ∨ onAxisEdge.tx = some 0) ∧
    linkPath qSqrt onAxisEdge = [] ∧
    getLabelPosition qSqrt onAxisEdge = (some 0, some 0) :=
  ⟨Or.inr (Or.inl rfl),
   c10_falsy_guard qSqrt onAxisEdge (Or.inr (Or.inl rfl))⟩

/-- C2 — as amended: for every edge whose endpoint coordinates are
defined *with nonzero x coordinates* (the code's truthiness guard;
see `c2_geometry_counterexample` for a defined position with `x = 0`):
with equal ids the path is the fixed-radius (30) self-loop whose start
and end point coincide; with `linkCount = 1` it is the straight segment
from source to target; otherwise (distinct, non-coincident endpoints)
it is a quadratic curve whose control point is the segment midpoint
displaced by `curveOffset linkIndex linkCount` (i.e.
`(linkIndex − (linkCount−1)/2) · 30`) along the vector
`(−dy/√v, dx/√v)`, which is a unit normal of the source→target vector;
and the offsets are pairwise distinct and symmetric about zero. -/
theorem c2_geometry (sq : ℚ → ℚ) (d : DrawnEdge) (sx sy tx ty : ℚ)
    (hsx : d.sx = some sx) (hsy : d.sy = some sy)
    (htx : d.tx = some tx) (hty : d.ty = some ty)
    (hsx0 : sx ≠ 0) (htx0 : tx ≠ 0) :
    (d.sourceId = d.targetId →
      linkPath sq d =
        [ .move (some (sx - 10)) (some (sy - 10)),
          .arc 30 30 0 1 1 (some (sx + 10)) (some (sy - 10)),
          .arc 30 30 0 0 1 (some (sx - 10)) (some (sy - 10)) ] ∧
      pathStart (linkPath sq d) = pathEnd (linkPath sq d)) ∧
    (d.sourceId ≠ d.targetId → effCount d.linkCount = 1 →
      linkPath sq d = [ .move (some sx) (some sy),
                        .line (some tx) (some ty) ]) ∧
    (∀ v, v = (tx - sx) * (tx - sx) + (ty - sy) * (ty - sy) →
      d.sourceId ≠ d.targetId → effCount d.linkCount ≠ 1 →
      IsSqrtOf (sq v) v → v ≠ 0 →
      linkPath sq d =
        [ .move (some sx) (some sy),
          .quadTo
            (some ((sx + tx) / 2 +
              -(ty - sy) / sq v *
                curveOffset (effIndex d.linkIndex) (effCount d.linkCount)))
            (some ((sy + ty) / 2 +
              (tx - sx) / sq v *
                curveOffset (effIndex d.linkIndex) (effCount d.linkCount)))
            (some tx) (some ty) ] ∧
      -(ty - sy) / sq v * (tx - sx) + (tx - sx) / sq v * (ty - sy) = 0 ∧
      -(ty - sy) / sq v * (-(ty - sy) / sq v) +
        (tx - sx) / sq v * ((tx - sx) / sq v) = 1) ∧
    (∀ n i j : ℕ, i < n → j < n → i ≠ j →
      curveOffset i n ≠ curveOffset j n) ∧
    (∀ n i : ℕ, i < n → curveOffset (n - 1 - i) n = - curveOffset i n) := by
  have htr1 : jsTruthy (some sx) = true := by simp [jsTruthy, hsx0]
  have htr2 : jsTruthy (some tx) = true := by simp [jsTruthy, htx0]
  refine ⟨?_, ?_, ?_, ?_, ?_⟩
  · intro hid
    constructor
    · simp [linkPath, hsx, hsy, htx, htr1, htr2, hid, jsSub, jsAdd]
    · simp [linkPath, hsx, hsy, htx, htr1, htr2, hid, jsSub, jsAdd,
        pathStart, pathEnd, cmdPoint]
  · intro hid hlc
    simp [linkPath, hsx, hsy, htx, hty, htr1, htr2, hid, hlc]
  · intro v hv hid hlc hsq hv0
    rcases hsq with ⟨hsqnn, hsqsq⟩
    subst hv
    have hs0 : sq ((tx - sx) * (tx - sx) + (ty - sy) * (ty - sy)) ≠ 0 := by
      intro h0
      rw [h0] at hsqsq
      exact hv0 (by linarith)
    have hvnn : ¬ ((tx - sx) * (tx - sx) + (ty - sy) * (ty - sy) < 0) := by
      nlinarith [mul_self_nonneg (tx - sx), mul_self_nonneg (ty - sy)]
    refine ⟨?_, ?_, ?_⟩
    · simp [linkPath, hsx, hsy, htx, hty, htr1, htr2, hid, hlc, jsSub,
        jsAdd, jsMul, jsNeg, jsSqrtF, hvnn, jsDiv, hs0]
    · field_simp
      ring
    · field_simp
      linear_combination -hsqsq
  · intro n i j hi hj hij heq
    have h30 : (30 : ℚ) ≠ 0 := by norm_num
    have h2 := mul_right_cancel₀ h30 heq
    have : (i : ℚ) = (j : ℚ) := by linarith
    exact hij (by exact_mod_cast this)
  · intro n i hi
    have hi1 : i ≤ n - 1 := by omega
    have hn1 : 1 ≤ n := by omega
    unfold curveOffset
    rw [Nat.cast_sub hi1, Nat.cast_sub hn1]
    push_cast
    ring

/-- A multi-edge between distinct nodes at defined general positions
(`linkIndex 0` of `linkCount 2`). -/
def multiEdge : DrawnEdge :=
  { sourceId := "n1", targetId := "n2",
    sx := some 1, sy := some 2, tx := some 4, ty := some 6,
    linkIndex := some 0, linkCount := some 2 }

/-- Witness for `c2_geometry`: the hypotheses hold at `multiEdge`, and
the curve offsets of a 3-edge bundle are distinct and symmetric. -/
theorem c2_geometry_witness :
    multiEdge.sx = some 1 ∧ (1 : ℚ) ≠ 0 ∧ (4 : ℚ) ≠ 0 ∧
    (∀ n i j : ℕ, i < n → j < n → i ≠ j →
      curveOffset i n ≠ curveOffset j n) :=
  ⟨rfl, by decide, by decide,
   (c2_geometry qSqrt multiEdge 1 2 4 6 rfl rfl rfl rfl (by decide)
     (by decide)).2.2.2.1⟩

/-- Counterexample to C2 as stated: a single edge between distinct
nodes, both with *defined* positions, the source sitting at
`x = 0` — the claim requires the straight segment
`M (0,1) L (3,4)`, but the falsy guard makes `linkPath` return the
empty string. -/
theorem c2_geometry_counterexample :
    linkPath qSqrt
      { sourceId := "n1", targetId := "n2",
        sx := some 0, sy := some 1, tx := some 3, ty := some 4 } = [] ∧
    [ SvgCmd.move (some 0) (some 1), SvgCmd.line (some 3) (some 4) ]
      ≠ ([] : SvgPath) := by
  constructor
  · decide
  · decide

/-- C5 — as amended: for an edge between two *distinct* nodes at
coincident defined positions (`dx = dy = 0`, nonzero `x`): when
`linkCount` is 1 (or absent) the division by `dr` is never reached and
the path is the degenerate zero-length straight segment `M p L p`, with
the label anchored at the shared point and no NaN anywhere; but when
`linkCount > 1` the code divides `0` by `dr = 0` (`Math.sqrt(0) = 0`),
so the quadratic control point and the label anchor are NaN — the
claimed minimal-offset fallback does not exist
(`c5_nan_counterexample`). -/
theorem c5_coincident_nodes (sq : ℚ → ℚ) (d : DrawnEdge) (cx cy : ℚ)
    (hsx : d.sx = some cx) (hsy : d.sy = some cy)
    (htx : d.tx = some cx) (hty : d.ty = some cy)
    (hcx : cx ≠ 0) (hid : d.sourceId ≠ d.targetId) :
    (effCount d.linkCount = 1 →
      linkPath sq d =
        [ .move (some cx) (some cy), .line (some cx) (some cy) ] ∧
      pathHasNaN (linkPath sq d) = false ∧
      getLabelPosition sq d = (some cx, some cy)) ∧
    (effCount d.linkCount ≠ 1 → sq 0 = 0 →
      linkPath sq d =
        [ .move (some cx) (some cy),
          .quadTo none none (some cx) (some cy) ] ∧
      pathHasNaN (linkPath sq d) = true ∧
      getLabelPosition sq d = (none, none)) := by
  have htr : jsTruthy (some cx) = true := by simp [jsTruthy, hcx]
  constructor
  · intro hlc
    refine ⟨?_, ?_, ?_⟩
    · simp [linkPath, hsx, hsy, htx, hty, htr, hid, hlc]
    · simp [linkPath, hsx, hsy, htx, hty, htr, hid, hlc, pathHasNaN,
        cmdHasNaN]
    · simp [getLabelPosition, hsx, hsy, htx, hty, htr, hid, hlc, jsAdd,
        jsDiv, add_self_div_two]
  · intro hlc hsq0
    refine ⟨?_, ?_, ?_⟩
    · simp [linkPath, hsx, hsy, htx, hty, htr, hid, hlc, jsSub, jsAdd,
        jsMul, jsNeg, jsSqrtF, jsDiv, hsq0]
    · simp [linkPath, hsx, hsy, htx, hty, htr, hid, hlc, jsSub, jsAdd,
        jsMul, jsNeg, jsSqrtF, jsDiv, hsq0, pathHasNaN, cmdHasNaN]
    · simp [getLabelPosition, hsx, hsy, htx, hty, htr, hid, hlc, jsSub,
        jsAdd, jsMul, jsNeg, jsSqrtF, jsDiv, hsq0]

/-- A single edge between distinct nodes at the same defined position
`(5, 5)`. -/
def coincidentSingle : DrawnEdge :=
  { sourceId := "n1", targetId := "n2",
    sx := some 5, sy := some 5, tx := some 5, ty := some 5 }

/-- Witness for `c5_coincident_nodes`: at `coincidentSingle` the
degenerate straight segment is produced with no NaN. -/
theorem c5_coincident_nodes_witness :
    coincidentSingle.sx = some 5 ∧ (5 : ℚ) ≠ 0 ∧
    linkPath qSqrt coincidentSingle =
      [ .move (some 5) (some 5), .line (some 5) (some 5) ] ∧
    pathHasNaN (linkPath qSqrt coincidentSingle) = false ∧
    getLabelPosition qSqrt coincidentSingle = (some 5, some 5) :=
  ⟨rfl, by decide,
   (c5_coincident_nodes qSqrt coincidentSingle 5 5 rfl rfl rfl rfl
     (by decide) (by decide)).1 rfl⟩

/-- Two parallel edges between distinct nodes at the same defined
position `(5, 5)` (`linkIndex 0` of `linkCount 2`). -/
def coincidentDouble : DrawnEdge :=
  { sourceId := "n1", targetId := "n2",
    sx := some 5, sy := some 5, tx := some 5, ty := some 5,
    linkIndex := some 0, linkCount := some 2 }

/-- Counterexample to C5 as stated: with two edges between coincident
distinct nodes the code divides `0/0`; the emitted path has a NaN
control point and the label anchor is NaN — no minimal-offset straight
fallback exists. -/
theorem c5_nan_counterexample :
    linkPath qSqrt coincidentDouble =
      [ .move (some 5) (some 5), .quadTo none none (some 5) (some 5) ] ∧
    pathHasNaN (linkPath qSqrt coincidentDouble) = true ∧
    getLabelPosition qSqrt coincidentDouble = (none, none) := by
  have hsq0 : qSqrt 0 = 0 := qSqrt_zero
  refine ⟨?_, ?_, ?_⟩
  · simp [linkPath, coincidentDouble, jsTruthy, jsSub, jsAdd, jsMul,
      jsNeg, jsSqrtF, jsDiv, hsq0, effCount, effIndex]
  · simp [linkPath, coincidentDouble, jsTruthy, jsSub, jsAdd, jsMul,
      jsNeg, jsSqrtF, jsDiv, hsq0, effCount, effIndex, pathHasNaN,
      cmdHasNaN]
  · simp [getLabelPosition, coincidentDouble, jsTruthy, jsSub, jsAdd,
      jsMul, jsNeg, jsSqrtF, jsDiv, hsq0, effCount, effIndex]

/-! ### Selection fold lemmas -/

lemma hncFold_fst_mem (nid : String) (es : List Edge) :
    ∀ (k : ℕ) (acc : Finset String × Finset ℕ) (x : String),
      x ∈ (hncFold nid es k acc).1 ↔
        x ∈ acc.1 ∨ ∃ e ∈ es, incident nid e = true ∧
          (x = e.source ∨ x = e.target) := by
  induction es with
  | nil => intro k acc x; simp [hncFold]
  | cons e es ih =>
    intro k acc x
    show x ∈ (hncFold nid es (k + 1)
        (if incident nid e then
          (insert e.target (insert e.source acc.1), insert k acc.2)
        else acc)).1 ↔ _
    rw [ih]
    by_cases h : incident nid e = true
    · simp only [if_pos h, List.mem_cons, Finset.mem_insert]
      constructor
      · rintro ((hx | hx | hx) | ⟨e2, he2, hi2, hx⟩)
        · exact Or.inr ⟨e, Or.inl rfl, h, Or.inr hx⟩
        · exact Or.inr ⟨e, Or.inl rfl, h, Or.inl hx⟩
        · exact Or.inl hx
        · exact Or.inr ⟨e2, Or.inr he2, hi2, hx⟩
      · rintro (hx | ⟨e2, he2 | he2, hi2, hx⟩)
        · exact Or.inl (Or.inr (Or.inr hx))
        · subst he2
          rcases hx with hx | hx
          · exact Or.inl (Or.inr (Or.inl hx))
          · exact Or.inl (Or.inl hx)
        · exact Or.inr ⟨e2, he2, hi2, hx⟩
    · simp only [if_neg h, List.mem_cons]
      constructor
      · rintro (hx | ⟨e2, he2, hi2, hx⟩)
        · exact Or.inl hx
        · exact Or.inr ⟨e2, Or.inr he2, hi2, hx⟩
      · rintro (hx | ⟨e2, he2 | he2, hi2, hx⟩)
        · exact Or.inl hx
        · subst he2; exact absurd hi2 h
        · exact Or.inr ⟨e2, he2, hi2, hx⟩

lemma hncFold_snd_mem (nid : String) (es : List Edge) :
    ∀ (k : ℕ) (acc : Finset String × Finset ℕ) (i : ℕ),
      i ∈ (hncFold nid es k acc).2 ↔
        i ∈ acc.2 ∨ ∃ j, ∃ h : j < es.length,
          i = k + j ∧ incident nid (es.get ⟨j, h⟩) = true := by
  induction es with
  | nil => intro k acc i; simp [hncFold]
  | cons e es ih =>
    intro k acc i
    show i ∈ (hncFold nid es (k + 1)
        (if incident nid e then
          (insert e.target (insert e.source acc.1), insert k acc.2)
        else acc)).2 ↔ _
    rw [ih]
    by_cases h : incident nid e = true
    · simp only [if_pos h, Finset.mem_insert]
      constructor
      · rintro ((hx | hx) | ⟨j, hj, hij, hinc⟩)
        · exact Or.inr ⟨0, by simp, by omega, by simpa using h⟩
        · exact Or.inl hx
        · exact Or.inr ⟨j + 1, by simp only [List.length_cons]; omega,
            by omega, hinc⟩
      · rintro (hx | ⟨j, hj, hij, hinc⟩)
        · exact Or.inl (Or.inr hx)
        · cases j with
          | zero => exact Or.inl (Or.inl (by omega))
          | succ j2 =>
            exact Or.inr ⟨j2, by simp only [List.length_cons] at hj; omega,
              by omega, hinc⟩
    · simp only [if_neg h]
      constructor
      · rintro (hx | ⟨j, hj, hij, hinc⟩)
        · exact Or.inl hx
        · exact Or.inr ⟨j + 1, by simp only [List.length_cons]; omega,
            by omega, hinc⟩
      · rintro (hx | ⟨j, hj, hij, hinc⟩)
        · exact Or.inl hx
        · cases j with
          | zero => exact absurd (by simpa using hinc) h
          | succ j2 =>
            exact Or.inr ⟨j2, by simp only [List.length_cons] at hj; omega,
              by omega, hinc⟩

/-- When every edge's `originalIndex` is its position (offset by `k`),
the `navigateToNode` fold computes exactly the `handleNodeClick`
fold. -/
lemma navFold_eq_hncFold (nid : String) (es : List Edge) :
    ∀ (k : ℕ) (acc : Finset String × Finset ℕ),
      (∀ j, ∀ h : j < es.length,
        (es.get ⟨j, h⟩).originalIndex = some (k + j)) →
      navFold nid es acc = hncFold nid es k acc := by
  induction es with
  | nil => intro k acc hor; rfl
  | cons e es ih =>
    intro k acc hor
    have he : e.originalIndex = some k := by
      simpa using hor 0 (by simp)
    have hrest : ∀ j, ∀ h : j < es.length,
        (es.get ⟨j, h⟩).originalIndex = some ((k + 1) + j) := by
      intro j hj
      have h2 := hor (j + 1) (by simp only [List.length_cons]; omega)
      rw [show k + (j + 1) = (k + 1) + j by omega] at h2
      exact h2
    show navFold nid es
        (if incident nid e then
          (insert e.target (insert e.source acc.1),
           match e.originalIndex with
           | some i => insert i acc.2
           | none => acc.2)
        else acc)
      = hncFold nid es (k + 1)
        (if incident nid e then
          (insert e.target (insert e.source acc.1), insert k acc.2)
        else acc)
    rw [he]
    exact ih (k + 1) _ hrest

/-- C3: canvas selection. Clicking a node `n` selects it (clearing any
edge selection) and highlights exactly `{n} ∪ {endpoints of edges
incident to n}` as nodes and exactly the positions of the incident
edges as edge indices; clicking an edge selects it (clearing any node
selection) and highlights exactly its two endpoints and exactly its
index. -/
theorem c3_click_highlights :
    (∀ (st : SelState) (nid : String) (edges : List Edge),
      (handleNodeClick nid edges st).selectedNode = some nid ∧
      (handleNodeClick nid edges st).selectedEdge = none ∧
      (∀ x, x ∈ (handleNodeClick nid edges st).highlightedNodes ↔
        x = nid ∨ ∃ e ∈ edges, incident nid e = true ∧
          (x = e.source ∨ x = e.target)) ∧
      (∀ i, i ∈ (handleNodeClick nid edges st).highlightedEdges ↔
        ∃ h : i < edges.length,
          incident nid (edges.get ⟨i, h⟩) = true)) ∧
    (∀ (st : SelState) (e : Edge) (idx : ℕ),
      (handleEdgeClick e idx st).selectedEdge = some e ∧
      (handleEdgeClick e idx st).selectedNode = none ∧
      (handleEdgeClick e idx st).highlightedNodes
        = insert e.source {e.target} ∧
      (handleEdgeClick e idx st).highlightedEdges = {idx}) := by
  constructor
  · intro st nid edges
    refine ⟨rfl, rfl, ?_, ?_⟩
    · intro x
      show x ∈ (hncFold nid edges 0 ({nid}, ∅)).1 ↔ _
      rw [hncFold_fst_mem]
      simp
    · intro i
      show i ∈ (hncFold nid edges 0 ({nid}, ∅)).2 ↔ _
      rw [hncFold_snd_mem]
      simp only [Finset.not_mem_empty, false_or, Nat.zero_add]
      constructor
      · rintro ⟨j, hj, hij, hinc⟩
        subst hij
        exact ⟨hj, hinc⟩
      · rintro ⟨h, hinc⟩
        exact ⟨i, h, rfl, hinc⟩
  · intro st e idx
    exact ⟨rfl, rfl, rfl, rfl⟩

/-- C9: the sidebar navigation entry points produce exactly the
selection state of the corresponding canvas click handlers — for
`navigateToNode` whenever the edge list is the processed list (each
edge's `originalIndex` is its position, as `processedEdges`
guarantees), and for `navigateToEdge` whenever the edge carries the
`originalIndex` the canvas click handler is invoked with. -/
theorem c9_navigation_matches_clicks :
    (∀ (st : SelState) (nid : String) (es : List Edge),
      (∀ j, ∀ h : j < es.length, (es.get ⟨j, h⟩).originalIndex = some j) →
      navigateToNode nid es st = handleNodeClick nid es st) ∧
    (∀ (st : SelState) (e : Edge) (idx : ℕ),
      e.originalIndex = some idx →
      navigateToEdge e st = handleEdgeClick e idx st) := by
  constructor
  · intro st nid es hor
    show SelState.mk (some nid) none (navFold nid es ({nid}, ∅)).1
        (navFold nid es ({nid}, ∅)).2 st.expandedEpisode
      = SelState.mk (some nid) none (hncFold nid es 0 ({nid}, ∅)).1
        (hncFold nid es 0 ({nid}, ∅)).2 st.expandedEpisode
    rw [navFold_eq_hncFold nid es 0 ({nid}, ∅) (by simpa using hor)]
  · intro st e idx he
    show SelState.mk none (some e) (insert e.source {e.target})
        (match e.originalIndex with
         | some i => {i}
         | none => st.highlightedEdges) none
      = SelState.mk none (some e) (insert e.source {e.target}) {idx} none
    rw [he]

/-- Witness for `c9_navigation_matches_clicks`: on the processed spec
scenario the hypotheses hold and sidebar navigation equals the canvas
click transition. -/
theorem c9_navigation_matches_clicks_witness :
    (∀ j, ∀ h : j < (processedEdges specEdges).length,
      ((processedEdges specEdges).get ⟨j, h⟩).originalIndex = some j) ∧
    (∀ (st : SelState) (nid : String),
      navigateToNode nid (processedEdges specEdges) st
        = handleNodeClick nid (processedEdges specEdges) st) :=
  ⟨by decide,
   fun st nid => c9_navigation_matches_clicks.1 st nid
     (processedEdges specEdges) (by decide)⟩

lemma mem_setAdd_self (l : List String) (id : String) :
    id ∈ setAdd l id := by
  by_cases h : id ∈ l <;> simp [setAdd, h]

lemma cacheRun_cons (s : CacheSys) (e : CacheEv) (evs : List CacheEv) :
    cacheRun s (e :: evs) = cacheRun (cacheStep s e) evs := rfl

/-- C6 — as amended: a request for an identifier the requesting
callback sees as `Loaded` or `Loading` is a no-op (in particular an
already-loaded episode never triggers a second fetch); a failed fetch
leaves the loaded set unchanged, removes the identifier from the
loading set (back to `NotRequested`), logs the error and issues nothing
(and a later request fetches again); and two requests for a
not-yet-loaded identifier issue exactly one fetch *provided the second
request observes the state updated by the first* (a render in between).
Two requests inside one render cycle, reading the same state snapshot,
each issue a fetch (`c6_double_fetch_counterexample`). -/
theorem c6_cache_request_lifecycle :
    (∀ (s : CacheSys) (id : String), id ∈ s.snap.loadedKeys →
      cacheStep s (.request id) = s) ∧
    (∀ (s : CacheSys) (id : String), id ∈ s.snap.loadingKeys →
      cacheStep s (.request id) = s) ∧
    (∀ (s : CacheSys) (id : String),
      (cacheStep s (.fetchFail id)).live.loadedKeys = s.live.loadedKeys ∧
      (cacheStep s (.fetchFail id)).live.loadingKeys
        = s.live.loadingKeys.erase id ∧
      (cacheStep s (.fetchFail id)).errorsLogged = s.errorsLogged + 1 ∧
      (cacheStep s (.fetchFail id)).fetched = s.fetched) ∧
    (∀ (s : CacheSys) (id : String), s.snap = s.live →
      s.live.loadingKeys = [id] → id ∉ s.live.loadedKeys →
      (cacheRun s [.fetchFail id, .render, .request id]).fetched
        = s.fetched ++ [id]) ∧
    (∀ (s : CacheSys) (id : String), s.snap = s.live →
      id ∉ s.live.loadedKeys → id ∉ s.live.loadingKeys →
      (cacheRun s [.request id, .render, .request id]).fetched
        = s.fetched ++ [id]) := by
  refine ⟨?_, ?_, ?_, ?_, ?_⟩
  · intro s id h
    simp [cacheStep, h]
  · intro s id h
    simp [cacheStep, h]
  · intro s id
    refine ⟨rfl, rfl, rfl, rfl⟩
  · intro s id hsync hload hnl
    simp only [cacheRun_cons, cacheRun, List.foldl]
    simp [cacheStep, hsync, hload, hnl, List.erase_cons]
  · intro s id hsync hnl hnl2
    simp only [cacheRun_cons, cacheRun, List.foldl]
    simp [cacheStep, hsync, hnl, hnl2, mem_setAdd_self]

/-- A cache whose only episode `"e1"` is loaded, fully rendered. -/
def loadedCache : CacheSys := ⟨⟨["e1"], []⟩, ⟨["e1"], []⟩, ["e1"], 0⟩

/-- Witness for `c6_cache_request_lifecycle`: requesting the loaded
`"e1"` is a no-op, and from the empty cache a request–render–request
sequence issues exactly one fetch. -/
theorem c6_cache_request_lifecycle_witness :
    "e1" ∈ loadedCache.snap.loadedKeys ∧
    cacheStep loadedCache (.request "e1") = loadedCache ∧
    (cacheRun cacheInit [.request "e1", .render, .request "e1"]).fetched
      = ["e1"] :=
  ⟨by decide,
   c6_cache_request_lifecycle.1 loadedCache "e1" (by decide),
   c6_cache_request_lifecycle.2.2.2.2 cacheInit "e1" rfl (by decide)
     (by decide)⟩

/-- Counterexample to C6 as stated: two requests for the not-yet-loaded
`"e1"` issued within the same render cycle (e.g. a duplicated id in an
edge's `episodes` array, both processed by one `handleEdgeClick` call)
both read the same pre-request snapshot and issue **two** fetches. -/
theorem c6_double_fetch_counterexample :
    "e1" ∉ cacheInit.live.loadedKeys ∧
    "e1" ∉ cacheInit.live.loadingKeys ∧
    (cacheRun cacheInit [.request "e1", .request "e1"]).fetched
      = ["e1", "e1"] := by
  refine ⟨by decide, by decide, by decide⟩

lemma appRun_cons (s : AppSt) (e : AppEv) (evs : List AppEv) :
    appRun s (e :: evs) = appRun (appStep s e) evs := rfl

lemma appStep_simEnd_done {s : AppSt} (h : s.autoFitDone = true) :
    appStep s .simEnd = s := by
  simp [appStep, h]

lemma appRun_simEnd_done (n : ℕ) :
    ∀ (s : AppSt), s.autoFitDone = true →
      appRun s (List.replicate n .simEnd) = s := by
  induction n with
  | zero => intro s h; rfl
  | succ n ih =>
    intro s h
    rw [List.replicate_succ, appRun_cons, appStep_simEnd_done h]
    exact ih s h

/-- C7 — as amended: within one run of the setup effect the auto-fit
fires at most once, no matter how many settle (`end`) events the
simulation reports (the `autoFitDoneRef` guard); and the guard is reset
whenever the setup effect re-runs — which happens at each new snapshot
load, but *also* on a theme change, so one snapshot load can auto-fit
again after a mid-snapshot cosmetic re-run
(`c7_refit_counterexample`). -/
theorem c7_autofit_once_per_effect :
    (∀ (s : AppSt) (n : ℕ), s.autoFitDone = true →
      (appRun s (List.replicate n .simEnd)).fitCount = s.fitCount) ∧
    (∀ (s : AppSt) (n : ℕ),
      (appRun s (List.replicate n .simEnd)).fitCount ≤ s.fitCount + 1) ∧
    (∀ s : AppSt, (appStep s .loadSnapshot).autoFitDone = false) ∧
    (∀ (s : AppSt) (t : String), t ≠ s.theme →
      (appStep s (.setTheme t)).autoFitDone = false) := by
  refine ⟨?_, ?_, ?_, ?_⟩
  · intro s n h
    rw [appRun_simEnd_done n s h]
  · intro s n
    rcases Bool.eq_false_or_eq_true s.autoFitDone with h | h
    · rw [appRun_simEnd_done n s h]
      omega
    · cases n with
      | zero => simp [appRun]
      | succ n =>
        rw [List.replicate_succ, appRun_cons]
        have hstep : appStep s .simEnd
            = { s with autoFitDone := true, fitCount := s.fitCount + 1 } := by
          simp [appStep, h]
        rw [hstep, appRun_simEnd_done n _ rfl]
  · intro s
    rfl
  · intro s t ht
    simp [appStep, rerunSetup, fun hh : t = s.theme => ht hh]

/-- The state right after the first snapshot load. -/
def loadedApp : AppSt := appStep appInit .loadSnapshot

/-- Witness for `c7_autofit_once_per_effect`: with the guard already
set, five further settle events fire no fit. -/
theorem c7_autofit_once_per_effect_witness :
    ({ loadedApp with autoFitDone := true } : AppSt).autoFitDone = true ∧
    (appRun { loadedApp with autoFitDone := true }
      (List.replicate 5 .simEnd)).fitCount
      = ({ loadedApp with autoFitDone := true } : AppSt).fitCount :=
  ⟨rfl, c7_autofit_once_per_effect.1
    { loadedApp with autoFitDone := true } 5 rfl⟩

/-- Counterexample to C7 as stated: one snapshot load, a settle, a
theme change (same snapshot), a second settle — the auto-fit fires
twice for that snapshot load, because the theme change re-runs the
setup effect and clears `autoFitDoneRef` (the dependency array at line
731 contains `theme`). -/
theorem c7_refit_counterexample :
    (appRun loadedApp [.simEnd, .setTheme "dark", .simEnd]).fitCount = 2 ∧
    (appRun loadedApp [.simEnd, .setTheme "dark", .simEnd]).graphEpoch
      = loadedApp.graphEpoch := by
  refine ⟨by decide, by decide⟩

/-- C8 — as amended: a highlight-set change runs only the separate
highlight effect and never touches the simulation; loading a new
snapshot recreates the simulation over fresh node objects (positions
reseeded from scratch); but a theme change — although only cosmetic —
*also* re-runs the setup effect, stopping and recreating the simulation
(`c8_theme_restart_counterexample`); it reuses the same node objects,
so positions and velocities are carried over while the simulation
itself restarts. -/
theorem c8_restart_policy :
    (∀ s : AppSt,
      (appStep s .setHighlights).simEpoch = s.simEpoch ∧
      (appStep s .setHighlights).freshSeed = s.freshSeed ∧
      (appStep s .setHighlights).graphEpoch = s.graphEpoch) ∧
    (∀ s : AppSt,
      (appStep s .loadSnapshot).simEpoch = s.simEpoch + 1 ∧
      (appStep s .loadSnapshot).freshSeed = true) ∧
    (∀ (s : AppSt) (t : String), t ≠ s.theme →
      (appStep s (.setTheme t)).simEpoch = s.simEpoch + 1 ∧
      (appStep s (.setTheme t)).freshSeed = false) := by
  refine ⟨?_, ?_, ?_⟩
  · intro s
    exact ⟨rfl, rfl, rfl⟩
  · intro s
    exact ⟨rfl, rfl⟩
  · intro s t ht
    constructor <;>
      simp [appStep, rerunSetup, fun hh : t = s.theme => ht hh]

/-- Witness for `c8_restart_policy`: switching the initial light theme
to dark increments the simulation epoch without a snapshot change. -/
theorem c8_restart_policy_witness :
    "dark" ≠ appInit.theme ∧
    (appStep appInit (.setTheme "dark")).simEpoch = appInit.simEpoch + 1 ∧
    (appStep appInit (.setTheme "dark")).freshSeed = false :=
  ⟨by decide, c8_restart_policy.2.2 appInit "dark" (by decide)⟩

/-- Counterexample to C8 as stated: changing only the theme (a
cosmetic parameter) restarts the force simulation — the setup effect
re-runs (its dependency array contains `theme`), stops the running
simulation and creates a new one — while the snapshot is unchanged. -/
theorem c8_theme_restart_counterexample :
    (appStep appInit (.setTheme "dark")).simEpoch
      = appInit.simEpoch + 1 ∧
    (appStep appInit (.setTheme "dark")).graphEpoch
      = appInit.graphEpoch := by
  refine ⟨by decide, by decide⟩

end GraphitiUI
